import Mathlib

/-
  Verification of the `mdu` disk-usage utility (sources: mdu.c, queue.c,
  safe_functions.c, thread_context.c).

  The development shallowly embeds the C code:
  * pure helpers become Lean functions of the same name;
  * the filesystem is an explicit parameter (`Fs`): `lstat` and
    `opendir`/`readdir` become lookups in it, with `none` denoting the
    corresponding syscall failure;
  * functions that may call `exit(EXIT_FAILURE)` (via the `safe_` wrappers)
    return `Except Nat _`, the error value being the process exit status;
  * the concurrent scheduler of mdu.c is embedded as a nondeterministic
    small-step transition system over per-root states; an unbounded set of
    in-flight traversals models any number of worker threads.
-/

namespace Mdu

/-! ## Filesystem model -/

/-- Result of `lstat`: the fields of `struct stat` that mdu reads. -/
structure Stat where
  st_mode : Nat
  st_blocks : Nat
deriving DecidableEq, Repr

/-- `S_IFMT` file-type mask (POSIX, octal 0170000). -/
def S_IFMT : Nat := 0xF000

/-- `S_IFDIR` directory file type (POSIX, octal 0040000). -/
def S_IFDIR : Nat := 0x4000

/-- mdu.c `is_dictionary`: `(file_info.st_mode & S_IFMT) == S_IFDIR`. -/
def is_dictionary (file_info : Stat) : Bool :=
  file_info.st_mode &&& S_IFMT == S_IFDIR

/-- The (fixed) filesystem a run executes against.  `lstat p = none` means
`lstat(2)` fails on `p`; `opendir d = none` means `opendir(3)` fails on `d`;
`opendir d = some es` gives the entry names `readdir` yields for `d`
(including any `"."`/`".."` entries, in readdir order). -/
structure Fs where
  lstat : String → Option Stat
  opendir : String → Option (List String)

/-! ## queue.c — a FIFO of strings, embedded as a `List String` with the
front of the queue at the head of the list (`q->first`). -/

/-- queue.c `queue_enqueue`: append a (copy of the) string at the back;
the two branches mirror the `q->first == NULL` test in the source. -/
def queue_enqueue (q : List String) (value : String) : List String :=
  if q.isEmpty then [value] else q ++ [value]

/-- queue.c `queue_dequeue`: remove the front node and return a copy of its
string.  On an empty queue the C code dereferences `q->first == NULL`
(undefined behaviour); the embedding returns `none` there, so the function
is specified only under the non-emptiness precondition. -/
def queue_dequeue (q : List String) : Option (String × List String) :=
  match q with
  | [] => none
  | value :: rest => some (value, rest)

/-- queue.c `queue_is_empty`: `q->first == NULL`. -/
def queue_is_empty (q : List String) : Bool :=
  q.isEmpty

/-- Repeatedly dequeue until the queue is empty, collecting the returned
strings in order (used to state the FIFO property). -/
def queue_drain : List String → List String
  | [] => []
  | value :: rest => value :: queue_drain rest

/-! ## safe_functions.c -/

/-- safe_functions.c `safe_lstat`: on `lstat` failure it prints a diagnostic
and calls `exit(EXIT_FAILURE)`, embedded as `Except.error 1`. -/
def safe_lstat (fs : Fs) (path_name : String) : Except Nat Stat :=
  match fs.lstat path_name with
  | none => Except.error 1
  | some file_info => Except.ok file_info

/-- The stderr line `safe_opendir` prints when `opendir` fails. -/
def opendir_error_message (dir_name : String) : String :=
  "du: cannot read directory " ++ dir_name

/-- safe_functions.c `safe_opendir`: returns the directory listing, or
`none` after printing one error line (second component: the stderr lines
emitted by the call).  Unlike `safe_lstat` it does NOT exit. -/
def safe_opendir (fs : Fs) (dir_name : String) :
    Option (List String) × List String :=
  match fs.opendir dir_name with
  | none => (none, [opendir_error_message dir_name])
  | some entries => (some entries, [])

/-! ## mdu.c — small helpers -/

/-- mdu.c `get_path_length`: `strlen(file) + strlen(dir) + 2`. -/
def get_path_length (file_path directory_path : String) : Nat :=
  file_path.length + directory_path.length + 2

/-- mdu.c `is_dot_or_dot_dot`: `strcmp(path, ".") == 0 || strcmp(path, "..") == 0`. -/
def is_dot_or_dot_dot (path : String) : Bool :=
  path == "." || path == ".."

/-- mdu.c `create_full_path`: `snprintf(buf, len, "%s/%s", dir, file)` into a
buffer of exactly `get_path_length` bytes, i.e. the concatenation
`dir ++ "/" ++ file`. -/
def create_full_path (dir_name file_name : String) : String :=
  dir_name ++ "/" ++ file_name

/-! ## mdu.c — thread-count option -/

/-- Code of the first `char` of a C string (`*optarg`); the terminating NUL
(code 0) for the empty string. -/
def first_char_code (s : String) : Nat :=
  match s.data with
  | [] => 0
  | c :: _ => c.toNat

/-- Digit-folding loop of `atoi`: consume decimal digits, stop at the first
non-digit. -/
def atoi_digits : List Char → Nat → Nat
  | [], acc => acc
  | c :: cs, acc =>
    if c.isDigit then atoi_digits cs (acc * 10 + (c.toNat - 48)) else acc

/-- C `atoi`: skip leading whitespace, parse an optional sign and a run of
decimal digits. -/
def atoi (s : String) : Int :=
  match s.data.dropWhile Char.isWhitespace with
  | '-' :: rest => - (atoi_digits rest 0 : Int)
  | '+' :: rest => (atoi_digits rest 0 : Int)
  | cs => (atoi_digits cs 0 : Int)

/-- mdu.c `get_thread_amount`, with the `getopt` loop abstracted to the
argument of the `-j` option when one is present (`none` = option absent,
which makes `getopt` return `-1` and the function fall through to
`return 0`).  The `case 'j'` branch tests `*optarg < 1` — the first
CHARACTER of the option argument, not its numeric value — and otherwise
returns `atoi(optarg) - 1`. -/
def get_thread_amount (jOpt : Option String) : Int :=
  match jOpt with
  | none => 0
  | some optarg =>
    if first_char_code optarg < 1 then 0 else atoi optarg - 1

/-- Number of `pthread_create` calls performed by the loop
`for (i = 0; i < thread_num; i++)` in `main`: zero when `thread_num ≤ 0`. -/
def spawned_threads (thread_num : Int) : Nat :=
  thread_num.toNat

/-! ## thread_context.c — coordinators -/

/-- thread_context.c `Coordinator`: the per-root traversal state (its work
queue, accumulated total and active-worker counter; the mutexes are
synchronisation, not data). -/
structure Coordinator where
  dir_queue : List String
  tot_sum : Nat
  active_threads : Nat
deriving DecidableEq, Repr

/-- thread_context.c `create_coordinator`: fresh coordinator with an empty
queue, zero total and zero counter. -/
def create_coordinator : Coordinator :=
  { dir_queue := [], tot_sum := 0, active_threads := 0 }

/-- thread_context.c `update_total_sum`: `coordinator->tot_sum += value`. -/
def update_total_sum (value : Nat) (coordinator : Coordinator) : Coordinator :=
  { coordinator with tot_sum := coordinator.tot_sum + value }

/-- thread_context.c `increment_counter`. -/
def increment_counter (coordinator : Coordinator) : Coordinator :=
  { coordinator with active_threads := coordinator.active_threads + 1 }

/-- thread_context.c `decrement_counter` (a no-op at zero). -/
def decrement_counter (coordinator : Coordinator) : Coordinator :=
  { coordinator with active_threads := coordinator.active_threads - 1 }

/-! ### Allocation bookkeeping of the coordinator array (for the bounds
claim about `expand_and_create_coordinator`). -/

/-- The two allocation-relevant numbers of a `ThreadContext`:
`cap` is the number of `Coordinator*` slots actually allocated for
`thread_context->coordinator`, `sizeField` is `thread_context->size`. -/
structure CtxMem where
  cap : Nat
  sizeField : Nat
deriving DecidableEq, Repr

/-- thread_context.c `create_thread_context`:
`coordinator = safe_calloc(2, sizeof(Coordinator*))`, `size = 2`. -/
def create_thread_context_mem : CtxMem :=
  { cap := 2, sizeField := 2 }

/-- thread_context.c `expand_and_create_coordinator`, allocation part, called
with `dir_num` already incremented: if `size <= dir_num` it reallocs the
array to `size + 2` pointer slots but doubles the `size` field
(`thread_context->size *= 2`); the new coordinator is then written to slot
`dir_num - 1`. -/
def expand_and_create_coordinator_mem (dir_num : Nat) (m : CtxMem) : CtxMem :=
  if m.sizeField ≤ dir_num then
    { cap := m.sizeField + 2, sizeField := m.sizeField * 2 }
  else
    m

/-- Allocation state after processing `k` directory-type CLI arguments
(the `j`-th of which runs `expand_and_create_coordinator` with
`dir_num = j`). -/
def ctx_mem_after : Nat → CtxMem
  | 0 => create_thread_context_mem
  | k + 1 => expand_and_create_coordinator_mem (k + 1) (ctx_mem_after k)

/-! ## mdu.c — argument seeding -/

/-- mdu.c `process_argument` for one non-flag argument: `safe_lstat` it
(fatal on failure); if it is a directory, append a fresh coordinator whose
queue holds exactly this argument and whose total is the argument's own
`st_blocks` (`expand_and_create_coordinator`, `queue_enqueue`,
`update_total_sum`); otherwise leave the coordinator list unchanged. -/
def process_argument (fs : Fs) (arg : String)
    (coords : List Coordinator) : Except Nat (List Coordinator) :=
  match safe_lstat fs arg with
  | Except.error e => Except.error e
  | Except.ok file_info =>
    if is_dictionary file_info then
      Except.ok (coords ++
        [update_total_sum file_info.st_blocks
          { create_coordinator with
              dir_queue := queue_enqueue create_coordinator.dir_queue arg }])
    else
      Except.ok coords

/-- mdu.c `traverse_input_arguments`: `process_argument` on every path
argument in order (the `-j` flag and its argument, which `is_flag_arg`
filters out, are not in the list). -/
def traverse_input_arguments (fs : Fs) (args : List String)
    (coords : List Coordinator) : Except Nat (List Coordinator) :=
  match args with
  | [] => Except.ok coords
  | arg :: rest =>
    match process_argument fs arg coords with
    | Except.error e => Except.error e
    | Except.ok coords' => traverse_input_arguments fs rest coords'

/-! ## mdu.c — dispatch (`get_coordinator_with_work`) -/

/-- mdu.c `are_threads_active`: scan all coordinators; true as soon as one
has `active_threads > 0` or a non-empty queue. -/
def are_threads_active (coords : List Coordinator) : Bool :=
  coords.any fun c =>
    decide (0 < c.active_threads) || !(queue_is_empty c.dir_queue)

/-- mdu.c `get_non_empty_coordinator`: scan coordinators in order; at the
first one whose queue is non-empty, dequeue the front path
(`queue_dequeue`) and `increment_counter`; return the scan index, the
dequeued path and the updated coordinator list (the C function returns the
coordinator pointer and writes the path through `dir_path`). -/
def get_non_empty_coordinator :
    List Coordinator → Option (Nat × String × List Coordinator)
  | [] => none
  | c :: rest =>
    match c.dir_queue with
    | [] =>
      match get_non_empty_coordinator rest with
      | none => none
      | some (i, p, rest') => some (i + 1, p, c :: rest')
    | p :: q =>
      some (0, p, increment_counter { c with dir_queue := q } :: rest)

/-- Outcome of one evaluation of the body of `get_coordinator_with_work`
under `mutex_work`:  `found` = dequeued work is returned with the lock
released; `wait` = the thread blocks on `cond_work` and retries after a
broadcast; `terminate` = the `while` guard failed and `NULL` is returned. -/
inductive DispatchResult where
  | found (index : Nat) (path : String) (state : List Coordinator)
  | wait
  | terminate
deriving DecidableEq, Repr

/-- mdu.c `get_coordinator_with_work`, one decision under the dispatch lock:
if `are_threads_active` fails, return `NULL` (global termination); else try
`get_non_empty_coordinator`; on `NULL`, wait on the condition variable
(and the C loop re-runs this decision when woken). -/
def get_coordinator_with_work (coords : List Coordinator) : DispatchResult :=
  if are_threads_active coords then
    match get_non_empty_coordinator coords with
    | none => DispatchResult.wait
    | some (i, p, coords') => DispatchResult.found i p coords'
  else
    DispatchResult.terminate

/-! ## mdu.c — directory traversal (one unit of work) -/

/-- mdu.c `process_directory_entry`: `safe_lstat` the full path (fatal —
`exit(EXIT_FAILURE)` — on failure, embedded as `Except.error 1`); if it is
a directory, enqueue the full path onto the SAME root's queue; in every
case add its `st_blocks` to the running local sum. -/
def process_directory_entry (fs : Fs) (full_path : String) (sum : Nat)
    (queue : List String) : Except Nat (Nat × List String) :=
  match safe_lstat fs full_path with
  | Except.error e => Except.error e
  | Except.ok file_info =>
    let queue' :=
      if is_dictionary file_info then queue_enqueue queue full_path else queue
    Except.ok (sum + file_info.st_blocks, queue')

/-- mdu.c `process_directory_entries`: the `readdir` loop — for every entry
name that is not `.`/`..`, build the full path with `create_full_path` and
run `process_directory_entry`; dot entries are skipped silently. -/
def process_directory_entries (fs : Fs) (dir_name : String)
    (entries : List String) (sum : Nat) (queue : List String) :
    Except Nat (Nat × List String) :=
  match entries with
  | [] => Except.ok (sum, queue)
  | file :: rest =>
    if is_dot_or_dot_dot file then
      process_directory_entries fs dir_name rest sum queue
    else
      match process_directory_entry fs (create_full_path dir_name file)
          sum queue with
      | Except.error e => Except.error e
      | Except.ok (sum', queue') =>
        process_directory_entries fs dir_name rest sum' queue'

/-- mdu.c `traverse_directory`: `safe_opendir`; if it fails the unit
contributes nothing (sum stays 0, no `update_total_sum`, no enqueues) but
`errno` is now set; otherwise process all entries (fatal `lstat` failures
propagate) and add the local sum to the root's total.  Result on success:
`(queue, tot_sum, errno_was_set_by_opendir, stderr_lines)`. -/
def traverse_directory (fs : Fs) (dir_name : String) (queue : List String)
    (tot_sum : Nat) : Except Nat (List String × Nat × Bool × List String) :=
  match safe_opendir fs dir_name with
  | (none, errs) => Except.ok (queue, tot_sum, true, errs)
  | (some entries, _) =>
    match process_directory_entries fs dir_name entries 0 queue with
    | Except.error e => Except.error e
    | Except.ok (sum, queue') =>
      Except.ok (queue', tot_sum + sum, false, [])

/-! ## mdu.c — worker exit statuses and process exit -/

/-- Tail of mdu.c `thread_handler`: once the loop exits, the worker returns
exit status 1 when `errno != 0` (set e.g. by a failed `opendir`), else 0. -/
def thread_handler_status (errno_nonzero : Bool) : Nat :=
  if errno_nonzero then 1 else 0

/-- mdu.c `collect_thread_exit_statuses`: join every spawned worker; if any
returned `EXIT_FAILURE` (1), force the aggregate exit status to 1. -/
def collect_thread_exit_statuses (statuses : List Nat) (exit_status : Nat) :
    Nat :=
  statuses.foldl (fun es v => if v = 1 then 1 else es) exit_status

/-- End of mdu.c `main`: `exit(EXIT_FAILURE)` when the aggregate status is
non-zero, else `exit(EXIT_SUCCESS)`. -/
def main_exit_status (exit_status : Nat) : Nat :=
  if exit_status ≠ 0 then 1 else 0

/-! ## mdu.c — result printing -/

/-- Whether a path names a directory on `fs` (used only in statements). -/
def is_dir_path (fs : Fs) (p : String) : Bool :=
  match fs.lstat p with
  | some file_info => is_dictionary file_info
  | none => false

/-- Loop of mdu.c `print_results`: for each path argument in order,
`safe_lstat` it again (fatal on failure: `Except.error` carries the stdout
lines already printed plus the exit status 1); print
`tot_sum` of the next coordinator for a directory, the file's own
`st_blocks` otherwise, formatted `"%d\t%s"`. -/
def print_results_loop (fs : Fs) (paths : List String) (totals : List Nat)
    (dir_num : Nat) (printed : List String) :
    Except (List String × Nat) (List String) :=
  match paths with
  | [] => Except.ok printed
  | p :: rest =>
    match fs.lstat p with
    | none => Except.error (printed, 1)
    | some file_info =>
      if is_dictionary file_info then
        print_results_loop fs rest totals (dir_num + 1)
          (printed ++ [toString (totals.getD dir_num 0) ++ "\t" ++ p])
      else
        print_results_loop fs rest totals dir_num
          (printed ++ [toString file_info.st_blocks ++ "\t" ++ p])

/-- mdu.c `print_results` (paths = the non-flag arguments, `totals` = the
coordinators' final `tot_sum` values in creation order). -/
def print_results (fs : Fs) (paths : List String) (totals : List Nat) :
    Except (List String × Nat) (List String) :=
  print_results_loop fs paths totals 0 []

/-- The spec's output-line format (§6): `<block-count><TAB><path>`, the
block count being the file's own `st_blocks` for a plain file and the
root's accumulated total (the `dir_index`-th coordinator) for a directory.
Stated from the spec's words, for comparison against `print_results`. -/
def spec_result_line (fs : Fs) (totals : List Nat) (dir_index : Nat)
    (p : String) : String :=
  match fs.lstat p with
  | some file_info =>
    (if is_dictionary file_info then toString (totals.getD dir_index 0)
     else toString file_info.st_blocks) ++ "\t" ++ p
  | none => ""

/-- The lines `print_results` is specified to emit, path by path, carrying
the running count of directory arguments already printed. -/
def spec_result_lines (fs : Fs) (totals : List Nat) :
    List String → Nat → List String
  | [], _ => []
  | p :: rest, dir_num =>
    spec_result_line fs totals dir_num p ::
      spec_result_lines fs totals rest
        (dir_num + (if is_dir_path fs p then 1 else 0))

/-! ## mdu.c — whole-run skeleton (for the fatal-error/output claim) -/

/-- mdu.c `main` after flag parsing, with the worker phase abstracted by
`work` (it receives the seeded coordinators and yields the final totals
plus the workers' aggregated failure flag, or a fatal exit status):
seed all coordinators (`traverse_input_arguments`), run the workers, then
`print_results`.  The result is `ok (stdout_lines, exit_status)`, or
`error (stdout_lines_printed_before_the_abort, exit_status)` when some
phase called `exit`. -/
def main_run (fs : Fs) (paths : List String)
    (work : List Coordinator → Except Nat (List Nat × Bool)) :
    Except (List String × Nat) (List String × Nat) :=
  match traverse_input_arguments fs paths [] with
  | Except.error e => Except.error ([], e)
  | Except.ok coords =>
    match work coords with
    | Except.error e => Except.error ([], e)
    | Except.ok (totals, failed) =>
      match print_results fs paths totals with
      | Except.error le => Except.error le
      | Except.ok lines =>
        Except.ok (lines, main_exit_status (if failed then 1 else 0))

/-! ## Abstract scheduler semantics for the total-correctness claim

For the claim about final totals the filesystem under one root argument is
a finite tree of entries, each carrying its `st_blocks`.  A queue element
is represented by the subtree its path denotes (paths are unique in a tree
traversed without following symlinks, as mdu does with `lstat`).  The
concurrent run of any number of workers is a nondeterministic small-step
system: a step either dequeues a directory and opens it
(`get_coordinator_with_work` + `safe_opendir`), processes one `readdir`
entry (`process_directory_entry`: enqueue it if it is a directory, add its
own blocks to the unit's local sum), or finishes a unit
(`update_total_sum` + `decrement_counter`).  The list of in-flight units is
unbounded, so every worker count is covered. -/

/-- One filesystem entry under a root: its own `st_blocks`, and its
children when it is a directory (in `readdir` order). -/
inductive FsNode where
  | file (blocks : Nat)
  | dir (blocks : Nat) (children : List FsNode)
deriving Repr

mutual

/-- Sum of `st_blocks` over every entry of a subtree, the subtree's own
root included. -/
def nodeBlocks : FsNode → Nat
  | FsNode.file b => b
  | FsNode.dir b cs => b + listBlocks cs

/-- Sum of `nodeBlocks` over a list of subtrees. -/
def listBlocks : List FsNode → Nat
  | [] => 0
  | c :: cs => nodeBlocks c + listBlocks cs

end

/-- An entry's own `st_blocks` (what one `lstat` reports). -/
def ownBlocks : FsNode → Nat
  | FsNode.file b => b
  | FsNode.dir b _ => b

/-- Blocks still to be accumulated once an entry sits in a work queue:
everything strictly below it (its own blocks were added by whoever
enumerated it, or by `process_argument` for the seed). -/
def pendingBlocks : FsNode → Nat
  | FsNode.file _ => 0
  | FsNode.dir _ cs => listBlocks cs

/-- `is_dictionary` on the tree. -/
def isDirNode : FsNode → Bool
  | FsNode.file _ => false
  | FsNode.dir _ _ => true

/-- What `process_directory_entry` enqueues for one entry: the entry itself
if it is a directory, nothing otherwise. -/
def enqueue_if_dir (c : FsNode) : List FsNode :=
  if isDirNode c then [c] else []

/-- An in-flight unit of work: a dequeued-and-opened directory, with the
`readdir` entries not yet processed and the local sum accumulated so far
(mdu.c `traverse_directory`'s `sum`). -/
structure Traversal where
  remaining : List FsNode
  localSum : Nat
deriving Repr

/-- State of one root's coordinator during the worker phase: its work
queue (front first), the in-flight traversal units (one per worker
currently working for this root — `active_threads` is their number), and
the accumulated total (`tot_sum`). -/
structure RootState where
  queue : List FsNode
  inflight : List Traversal
  tot_sum : Nat
deriving Repr

/-- State of a root right after `process_argument` seeded it: the root
path alone in the queue, no worker active, total = the root's own
`st_blocks`. -/
def seedRoot (r : FsNode) : RootState :=
  { queue := [r], inflight := [], tot_sum := ownBlocks r }

/-- Blocks pending in a queue. -/
def pendingSum (q : List FsNode) : Nat :=
  (q.map pendingBlocks).sum

/-- Blocks an in-flight unit will still add to the total: its local sum so
far plus everything in and below its unprocessed entries. -/
def traversalPending (u : Traversal) : Nat :=
  u.localSum + listBlocks u.remaining

/-- Blocks pending across all in-flight units. -/
def inflightPending (l : List Traversal) : Nat :=
  (l.map traversalPending).sum

/-- The accounting measure of a root state: blocks already in the total
plus blocks certain to be added by queued and in-flight work.  It is
invariant under scheduler steps. -/
def rootMeasure (s : RootState) : Nat :=
  s.tot_sum + pendingSum s.queue + inflightPending s.inflight

/-- One scheduler step on one root, by any worker:
* `dequeue`: `get_coordinator_with_work` hands the front of the queue to a
  worker (`queue_dequeue` + `increment_counter`) and the worker opens it —
  a fresh in-flight unit with the directory's entries and local sum 0;
* `entry`: an in-flight unit processes its next `readdir` entry
  (`process_directory_entry`): the entry is appended to the SAME root's
  queue when it is a directory, and its own blocks join the local sum;
* `finish`: a unit with no entries left adds its local sum to the root's
  total (`update_total_sum`) and its worker leaves (`decrement_counter`).
The position `pre`/`post` of the unit is arbitrary: any in-flight worker
may step at any time. -/
inductive Step : RootState → RootState → Prop where
  | dequeue (b : Nat) (cs rest : List FsNode) (infl : List Traversal) (t : Nat) :
      Step ⟨FsNode.dir b cs :: rest, infl, t⟩
           ⟨rest, ⟨cs, 0⟩ :: infl, t⟩
  | entry (c : FsNode) (rem q : List FsNode) (s : Nat)
      (pre post : List Traversal) (t : Nat) :
      Step ⟨q, pre ++ ⟨c :: rem, s⟩ :: post, t⟩
           ⟨q ++ enqueue_if_dir c, pre ++ ⟨rem, s + ownBlocks c⟩ :: post, t⟩
  | finish (s : Nat) (q : List FsNode) (pre post : List Traversal) (t : Nat) :
      Step ⟨q, pre ++ ⟨[], s⟩ :: post, t⟩
           ⟨q, pre ++ post, t + s⟩

/-- Reflexive-transitive closure of `Step` (one root). -/
inductive Reach : RootState → RootState → Prop where
  | refl (s : RootState) : Reach s s
  | tail {a b c : RootState} : Reach a b → Step b c → Reach a c

/-- One step of the whole scheduler: some root steps, the others are
untouched (workers of different roots interleave arbitrarily). -/
inductive MStep : List RootState → List RootState → Prop where
  | here {s s' : RootState} {rest : List RootState} :
      Step s s' → MStep (s :: rest) (s' :: rest)
  | there {s : RootState} {rest rest' : List RootState} :
      MStep rest rest' → MStep (s :: rest) (s :: rest')

/-- Reflexive-transitive closure of `MStep`. -/
inductive MReach : List RootState → List RootState → Prop where
  | refl (l : List RootState) : MReach l l
  | tail {a b c : List RootState} : MReach a b → MStep b c → MReach a c

/-! ## Concrete example inputs (used to instantiate the theorems) -/

/-- A small concrete filesystem:
`/f` a 3-block file; `/d` a 7-block directory holding the 2-block file
`/d/x`; `/bad` a directory whose `opendir` fails; `/e` a directory whose
listing contains `.` and `..`; `/e/x` a subdirectory; `/crash` a directory
with an entry whose `lstat` fails; `.` a 5-block directory. -/
def exFs : Fs where
  lstat := fun p =>
    if p = "/f" then some { st_mode := 0x8000, st_blocks := 3 }
    else if p = "/d" then some { st_mode := 0x4000, st_blocks := 7 }
    else if p = "/d/x" then some { st_mode := 0x8000, st_blocks := 2 }
    else if p = "/bad" then some { st_mode := 0x4000, st_blocks := 1 }
    else if p = "/e" then some { st_mode := 0x4000, st_blocks := 1 }
    else if p = "/e/x" then some { st_mode := 0x4000, st_blocks := 2 }
    else if p = "/crash" then some { st_mode := 0x4000, st_blocks := 1 }
    else if p = "." then some { st_mode := 0x4000, st_blocks := 5 }
    else none
  opendir := fun d =>
    if d = "/d" then some ["x"]
    else if d = "/e" then some [".", "..", "x"]
    else if d = "/crash" then some ["boom"]
    else none

/-- Subdirectory of the example tree: 3 own blocks, one 4-block file. -/
def exTreeSub : FsNode :=
  FsNode.dir 3 [FsNode.file 4]

/-- Example root tree: 1 own block, a 2-block file and `exTreeSub`;
total blocks 1 + 2 + 3 + 4 = 10. -/
def exTree : FsNode :=
  FsNode.dir 1 [FsNode.file 2, exTreeSub]

/-- Two example coordinators: the first drained, the second with one queued
path and one active worker. -/
def exCoords : List Coordinator :=
  [{ dir_queue := [], tot_sum := 0, active_threads := 0 },
   { dir_queue := ["p"], tot_sum := 3, active_threads := 1 }]

/-- A worker phase that never exits fatally (for instantiating the
whole-run theorem). -/
def workOk : List Coordinator → Except Nat (List Nat × Bool) :=
  fun _ => Except.ok ([], false)

/-! # Theorems -/

/-! ## Helper lemmas for queue.c -/

theorem queue_enqueue_eq_append (q : List String) (v : String) :
    queue_enqueue q v = q ++ [v] := by
  cases q <;> simp [queue_enqueue]

theorem queue_drain_id (q : List String) : queue_drain q = q := by
  induction q with
  | nil => rfl
  | cons v rest ih => simp [queue_drain, ih]

theorem foldl_queue_enqueue (xs : List String) :
    ∀ acc : List String, xs.foldl queue_enqueue acc = acc ++ xs := by
  induction xs with
  | nil => intro acc; simp
  | cons x xs ih =>
    intro acc
    simp [List.foldl_cons, queue_enqueue_eq_append, ih]

/-- C7: the queue is FIFO — `queue_enqueue` appends the given string to the
back, `queue_dequeue` (under the precondition that the queue is non-empty)
removes and returns a copy of the front element, `queue_is_empty` returns
true exactly when the queue holds no elements, and for every sequence of
enqueues into an empty queue, draining by successive dequeues returns the
values in insertion order. -/
theorem queue_fifo :
    (∀ (q : List String) (v : String), queue_enqueue q v = q ++ [v]) ∧
    (∀ q : List String, q ≠ [] →
      ∃ v rest, q = v :: rest ∧ queue_dequeue q = some (v, rest)) ∧
    (∀ q : List String, queue_is_empty q = true ↔ q = []) ∧
    (∀ q : List String, queue_drain q =
      match queue_dequeue q with
      | none => []
      | some (v, rest) => v :: queue_drain rest) ∧
    (∀ xs : List String, queue_drain (xs.foldl queue_enqueue []) = xs) := by
  refine ⟨queue_enqueue_eq_append, ?_, ?_, ?_, ?_⟩
  · intro q hq
    cases q with
    | nil => exact absurd rfl hq
    | cons v rest => exact ⟨v, rest, rfl, rfl⟩
  · intro q; cases q <;> simp [queue_is_empty]
  · intro q; cases q <;> rfl
  · intro xs
    rw [foldl_queue_enqueue xs [], List.nil_append, queue_drain_id]

/-- Witness for `queue_fifo`: dequeueing the concrete queue `["a", "b"]`
returns the front element `"a"` and leaves `["b"]`. -/
theorem queue_fifo_witness :
    ∃ v rest, (["a", "b"] : List String) = v :: rest ∧
      queue_dequeue ["a", "b"] = some (v, rest) :=
  queue_fifo.2.1 ["a", "b"] (by decide)

/-- C3 counterexample: for the explicit option argument `"0"`,
`get_thread_amount` does not return 0 — the code tests `*optarg < 1`, the
first CHARACTER of the argument (48 for `'0'`), so it falls through to
`atoi("0") - 1 = -1`. -/
theorem get_thread_amount_zero_cex :
    ¬ (get_thread_amount (some "0") = 0) := by decide

/-- C3 amended: `get_thread_amount` returns 0 for an absent `-j` option but
`-1` (not 0) for an explicit option argument of `"0"`; in both cases the
spawn loop of `main` (`for (i = 0; i < thread_num; i++)`) creates 0
additional worker threads, so the invoking thread is the sole worker.
(The C declaration `pthread_t threads[-1]` this entails is itself
undefined behaviour, though the loop body never runs.) -/
theorem get_thread_amount_behavior :
    get_thread_amount none = 0 ∧
    get_thread_amount (some "0") = -1 ∧
    spawned_threads (get_thread_amount none) = 0 ∧
    spawned_threads (get_thread_amount (some "0")) = 0 := by
  refine ⟨rfl, by decide, rfl, by decide⟩

/-- C9: the coordinator-array capacity claim fails — after the 7th
directory argument `expand_and_create_coordinator` has allocated only 6
pointer slots (`realloc` to `size + 2` while the `size` field doubles, so
from the 4th directory on the field no longer tracks the allocation), and
the write to `coordinator[dir_num - 1] = coordinator[6]` is out of bounds. -/
theorem ctx_mem_capacity_bug :
    (ctx_mem_after 7).cap = 6 ∧ (ctx_mem_after 7).sizeField = 8 ∧
    ¬ (7 ≤ (ctx_mem_after 7).cap) := by decide

/-! ## Helper lemmas for the dispatch decision -/

theorem are_threads_active_eq_false_iff (coords : List Coordinator) :
    are_threads_active coords = false ↔
      ∀ c ∈ coords, c.active_threads = 0 ∧ c.dir_queue = [] := by
  simp [are_threads_active, queue_is_empty, List.any_eq_false,
    Nat.pos_iff_ne_zero, List.isEmpty_iff]

theorem are_threads_active_of_queue (coords : List Coordinator)
    (c : Coordinator) (hc : c ∈ coords) (hq : c.dir_queue ≠ []) :
    are_threads_active coords = true := by
  refine List.any_eq_true.mpr ⟨c, hc, ?_⟩
  simp [queue_is_empty, List.isEmpty_iff, hq]

theorem are_threads_active_of_counter (coords : List Coordinator)
    (c : Coordinator) (hc : c ∈ coords) (ha : 0 < c.active_threads) :
    are_threads_active coords = true := by
  refine List.any_eq_true.mpr ⟨c, hc, ?_⟩
  simp [ha]

theorem get_non_empty_coordinator_none (coords : List Coordinator)
    (h : ∀ c ∈ coords, c.dir_queue = []) :
    get_non_empty_coordinator coords = none := by
  induction coords with
  | nil => rfl
  | cons c rest ih =>
    have hc := h c (List.mem_cons_self c rest)
    simp only [get_non_empty_coordinator, hc]
    rw [ih fun d hd => h d (List.mem_cons_of_mem c hd)]

theorem get_non_empty_coordinator_first (coords : List Coordinator) :
    ∀ (i : Nat) (c : Coordinator) (p : String) (q : List String),
      coords[i]? = some c → c.dir_queue = p :: q →
      (∀ j cj, j < i → coords[j]? = some cj → cj.dir_queue = []) →
      get_non_empty_coordinator coords =
        some (i, p, coords.set i (increment_counter { c with dir_queue := q })) := by
  induction coords with
  | nil => intro i c p q hg; simp at hg
  | cons c0 rest ih =>
    intro i c p q hg hq hbefore
    cases i with
    | zero =>
      simp only [List.getElem?_cons_zero, Option.some.injEq] at hg
      subst hg
      simp only [get_non_empty_coordinator, hq, List.set_cons_zero]
    | succ n =>
      have h0 : c0.dir_queue = [] :=
        hbefore 0 c0 (Nat.succ_pos n) (by simp)
      simp only [List.getElem?_cons_succ] at hg
      have hrest := ih n c p q hg hq
        (fun j cj hj hgj => hbefore (j + 1) cj (Nat.succ_lt_succ hj) (by simpa))
      simp only [get_non_empty_coordinator, h0, hrest, List.set_cons_succ]

/-- C2: one evaluation of the body of `get_coordinator_with_work` under the
dispatch lock returns `NULL` (terminate) exactly when every root
simultaneously has an active-thread counter of 0 and an empty queue;
whenever at least one root's queue is non-empty it dequeues the front path
of the first such root in scan order, increments that root's counter and
returns that root and path; and when no queue holds work but some worker
is still active it waits on the condition variable (and retries when
woken). -/
theorem get_coordinator_with_work_spec (coords : List Coordinator) :
    (get_coordinator_with_work coords = DispatchResult.terminate ↔
      ∀ c ∈ coords, c.active_threads = 0 ∧ c.dir_queue = []) ∧
    (∀ (i : Nat) (c : Coordinator) (p : String) (q : List String),
      coords[i]? = some c → c.dir_queue = p :: q →
      (∀ j cj, j < i → coords[j]? = some cj → cj.dir_queue = []) →
      get_coordinator_with_work coords =
        DispatchResult.found i p
          (coords.set i (increment_counter { c with dir_queue := q }))) ∧
    ((∃ c ∈ coords, 0 < c.active_threads) → (∀ c ∈ coords, c.dir_queue = []) →
      get_coordinator_with_work coords = DispatchResult.wait) := by
  refine ⟨?_, ?_, ?_⟩
  · rw [← are_threads_active_eq_false_iff]
    unfold get_coordinator_with_work
    cases h : are_threads_active coords with
    | false => simp
    | true =>
      simp only [if_pos rfl]
      cases hg : get_non_empty_coordinator coords with
      | none => simp
      | some v => obtain ⟨i, p, coords'⟩ := v; simp
  · intro i c p q hg hq hbefore
    have hmem : c ∈ coords := List.getElem?_mem hg
    have hact : are_threads_active coords = true :=
      are_threads_active_of_queue coords c hmem (by rw [hq]; exact List.cons_ne_nil p q)
    unfold get_coordinator_with_work
    rw [hact, if_pos rfl,
      get_non_empty_coordinator_first coords i c p q hg hq hbefore]
  · intro ⟨c, hc, hcnt⟩ hempty
    have hact := are_threads_active_of_counter coords c hc hcnt
    unfold get_coordinator_with_work
    rw [hact, if_pos rfl, get_non_empty_coordinator_none coords hempty]

/-- Witness for `get_coordinator_with_work_spec`: on the concrete state
`exCoords` (first root drained, second root with path `"p"` queued and one
active worker) the dispatcher hands out `"p"` from root 1 and bumps its
counter to 2. -/
theorem get_coordinator_with_work_spec_witness :
    get_coordinator_with_work exCoords =
      DispatchResult.found 1 "p"
        [{ dir_queue := [], tot_sum := 0, active_threads := 0 },
         { dir_queue := [], tot_sum := 3, active_threads := 2 }] := by
  have h := (get_coordinator_with_work_spec exCoords).2.1 1
    { dir_queue := ["p"], tot_sum := 3, active_threads := 1 } "p" []
    rfl rfl ?_
  · exact h
  · intro j cj hj hgj
    have hj0 : j = 0 := by omega
    subst hj0
    simp only [exCoords, List.getElem?_cons_zero, Option.some.injEq] at hgj
    rw [← hgj]

/-! ## Helper lemmas for worker exit statuses -/

theorem collect_thread_exit_statuses_one (statuses : List Nat) :
    collect_thread_exit_statuses statuses 1 = 1 := by
  induction statuses with
  | nil => rfl
  | cons v rest ih =>
    simp only [collect_thread_exit_statuses, List.foldl_cons] at ih ⊢
    rw [ite_self]
    exact ih

theorem collect_thread_exit_statuses_of_mem (statuses : List Nat)
    (init : Nat) (h : (1 : Nat) ∈ statuses) :
    collect_thread_exit_statuses statuses init = 1 := by
  induction statuses generalizing init with
  | nil => simp at h
  | cons v rest ih =>
    rcases List.mem_cons.mp h with hv | hrest
    · subst hv
      simp only [collect_thread_exit_statuses, List.foldl_cons, if_pos rfl]
      exact collect_thread_exit_statuses_one rest
    · simp only [collect_thread_exit_statuses, List.foldl_cons]
      exact ih _ hrest

/-- C4: if opening a directory discovered during traversal fails,
`safe_opendir` reports the error once on stderr and returns `NULL`;
`traverse_directory` then contributes zero blocks (the total is unchanged)
and enqueues no children (the queue is unchanged), returning normally
(`Except.ok`, so the worker's loop and all other roots continue) with
`errno` set; the worker's return value is then the failure flag
`EXIT_FAILURE`, and any worker having returned it makes the final process
exit status non-zero. -/
theorem opendir_failure_recoverable :
    (∀ (fs : Fs) (d : String) (q : List String) (t : Nat),
      fs.opendir d = none →
      (safe_opendir fs d).1 = none ∧
      (safe_opendir fs d).2.length = 1 ∧
      traverse_directory fs d q t =
        Except.ok (q, t, true, [opendir_error_message d])) ∧
    thread_handler_status true = 1 ∧
    (∀ (statuses : List Nat) (init : Nat), (1 : Nat) ∈ statuses →
      main_exit_status (collect_thread_exit_statuses statuses init) = 1) := by
  refine ⟨?_, rfl, ?_⟩
  · intro fs d q t h
    refine ⟨?_, ?_, ?_⟩ <;> simp [safe_opendir, traverse_directory, h]
  · intro statuses init h
    rw [collect_thread_exit_statuses_of_mem statuses init h]
    rfl

/-- Witness for `opendir_failure_recoverable`: on the concrete filesystem
`exFs`, traversing `/bad` (whose `opendir` fails) leaves queue and total
unchanged, emits one stderr line, and a worker pool in which one worker
returned 1 exits non-zero. -/
theorem opendir_failure_recoverable_witness :
    (traverse_directory exFs "/bad" ["x"] 4 =
      Except.ok (["x"], 4, true, [opendir_error_message "/bad"])) ∧
    main_exit_status (collect_thread_exit_statuses [0, 1] 0) = 1 :=
  ⟨(opendir_failure_recoverable.1 exFs "/bad" ["x"] 4 rfl).2.2,
   opendir_failure_recoverable.2.2 [0, 1] 0 (by decide)⟩

/-! ## Helper lemma: a failing lstat anywhere in a directory's entry list
makes the whole traversal exit fatally -/

theorem process_directory_entries_fatal (fs : Fs) (dir_name : String) :
    ∀ (entries : List String) (sum : Nat) (queue : List String)
      (e : String), e ∈ entries → is_dot_or_dot_dot e = false →
      fs.lstat (create_full_path dir_name e) = none →
      process_directory_entries fs dir_name entries sum queue =
        Except.error 1 := by
  intro entries
  induction entries with
  | nil => intro sum queue e he; simp at he
  | cons f rest ih =>
    intro sum queue e he hdot hnone
    rcases List.mem_cons.mp he with hf | hrest
    · subst hf
      simp [process_directory_entries, hdot, process_directory_entry,
        safe_lstat, hnone]
    · cases hfd : is_dot_or_dot_dot f with
      | true =>
        simp only [process_directory_entries, hfd, if_pos rfl]
        exact ih sum queue e hrest hdot hnone
      | false =>
        cases hl : fs.lstat (create_full_path dir_name f) with
        | none =>
          simp [process_directory_entries, hfd, process_directory_entry,
            safe_lstat, hl]
        | some file_info =>
          simp only [process_directory_entries, hfd, Bool.false_eq_true,
            if_false, process_directory_entry, safe_lstat, hl]
          exact ih _ _ e hrest hdot hnone

/-- C10: an `lstat` failure on an entry discovered during traversal is
fatal — `process_directory_entry` propagates `safe_lstat`'s
`exit(EXIT_FAILURE)` (embedded as `Except.error 1`, a non-zero process
exit status), so the whole traversal of a directory containing such an
entry aborts the process; by contrast a failed directory open is absorbed:
`traverse_directory` returns normally (`Except.ok`) with a zero
contribution. -/
theorem lstat_failure_fatal :
    (∀ (fs : Fs) (full_path : String) (sum : Nat) (queue : List String),
      fs.lstat full_path = none →
      process_directory_entry fs full_path sum queue = Except.error 1) ∧
    (∀ (fs : Fs) (d : String) (q : List String) (t : Nat)
      (entries : List String) (e : String),
      fs.opendir d = some entries → e ∈ entries →
      is_dot_or_dot_dot e = false →
      fs.lstat (create_full_path d e) = none →
      traverse_directory fs d q t = Except.error 1) ∧
    (∀ (fs : Fs) (d : String) (q : List String) (t : Nat),
      fs.opendir d = none →
      traverse_directory fs d q t =
        Except.ok (q, t, true, [opendir_error_message d])) := by
  refine ⟨?_, ?_, ?_⟩
  · intro fs full_path sum queue h
    simp only [process_directory_entry, safe_lstat, h]
  · intro fs d q t entries e hdir he hdot hnone
    simp only [traverse_directory, safe_opendir, hdir]
    rw [process_directory_entries_fatal fs d entries 0 q e he hdot hnone]
  · intro fs d q t h
    simp only [traverse_directory, safe_opendir, h]

/-- Witness for `lstat_failure_fatal`: on `exFs`, traversing `/crash`
(whose entry `boom` has a failing `lstat`) aborts the process with exit
status 1. -/
theorem lstat_failure_fatal_witness :
    traverse_directory exFs "/crash" [] 0 = Except.error 1 :=
  lstat_failure_fatal.2.1 exFs "/crash" [] 0 ["boom"] "boom"
    rfl (by decide) (by decide) rfl

/-! ## Helper lemmas for the dot-entry claims -/

theorem data_append (a b : String) : (a ++ b).data = a.data ++ b.data := rfl

theorem slash_mem_full_path (dir_name file_name : String) :
    '/' ∈ (create_full_path dir_name file_name).data := by
  unfold create_full_path
  rw [data_append, data_append]
  exact List.mem_append_left _ (List.mem_append_right _ (by decide))

theorem full_path_not_dot (dir_name file_name : String) :
    is_dot_or_dot_dot (create_full_path dir_name file_name) = false := by
  have hm := slash_mem_full_path dir_name file_name
  simp only [is_dot_or_dot_dot, Bool.or_eq_false_iff, beq_eq_false_iff_ne,
    ne_eq]
  constructor
  · intro h; rw [h] at hm; exact absurd hm (by decide)
  · intro h; rw [h] at hm; exact absurd hm (by decide)

theorem queue_enqueue_mem (q : List String) (v p : String)
    (h : p ∈ queue_enqueue q v) : p ∈ q ∨ p = v := by
  rw [queue_enqueue_eq_append] at h
  rcases List.mem_append.mp h with h | h
  · exact Or.inl h
  · exact Or.inr (List.mem_singleton.mp h)

/-- C6 counterexample: the claim fails for seed paths — running the program
on the CLI argument `"."` (a directory), `process_argument` enqueues the
argument verbatim, so the root's work queue contains `"."`
(`is_dot_or_dot_dot "." = true`): the `.`/`..` filter is applied only to
entry names met while enumerating a directory, never to arguments. -/
theorem seed_queue_contains_dot_cex :
    process_argument exFs "." [] =
      Except.ok [{ dir_queue := ["."], tot_sum := 5, active_threads := 0 }] ∧
    is_dot_or_dot_dot "." = true := by
  constructor
  · rfl
  · rfl

/-- C6 amended: entries named `.` or `..` encountered while enumerating a
directory are skipped and never enqueued, and every path that directory
enumeration ever enqueues is a joined path `dir/name`, hence never equal
to `.` or `..`; so a work queue seeded from a non-dot CLI argument never
contains `.` or `..`.  (The seed path itself is the CLI argument verbatim
and CAN be `.` or `..`, as the counterexample shows.) -/
theorem traversal_never_enqueues_dot :
    (∀ dir_name file_name : String,
      is_dot_or_dot_dot (create_full_path dir_name file_name) = false) ∧
    (∀ (fs : Fs) (dir_name : String) (entries : List String) (sum : Nat)
      (queue : List String) (sum' : Nat) (queue' : List String),
      process_directory_entries fs dir_name entries sum queue =
        Except.ok (sum', queue') →
      ∀ p ∈ queue', p ∈ queue ∨ is_dot_or_dot_dot p = false) := by
  refine ⟨full_path_not_dot, ?_⟩
  intro fs dir_name entries
  induction entries with
  | nil =>
    intro sum queue sum' queue' h p hp
    simp only [process_directory_entries, Except.ok.injEq, Prod.mk.injEq] at h
    exact Or.inl (h.2 ▸ hp)
  | cons f rest ih =>
    intro sum queue sum' queue' h p hp
    cases hfd : is_dot_or_dot_dot f with
    | true =>
      simp only [process_directory_entries, hfd, if_pos rfl] at h
      exact ih sum queue sum' queue' h p hp
    | false =>
      simp only [process_directory_entries, hfd, Bool.false_eq_true,
        if_false] at h
      cases hl : fs.lstat (create_full_path dir_name f) with
      | none => simp [process_directory_entry, safe_lstat, hl] at h
      | some file_info =>
        simp only [process_directory_entry, safe_lstat, hl] at h
        cases hdic : is_dictionary file_info with
        | true =>
          simp only [hdic, if_pos rfl] at h
          rcases ih _ _ sum' queue' h p hp with hq | hnd
          · rcases queue_enqueue_mem queue (create_full_path dir_name f) p hq
              with hq' | hv
            · exact Or.inl hq'
            · exact Or.inr (hv ▸ full_path_not_dot dir_name f)
          · exact Or.inr hnd
        | false =>
          simp only [hdic, Bool.false_eq_true, if_false] at h
          exact ih _ _ sum' queue' h p hp

/-- Witness for `traversal_never_enqueues_dot`: enumerating `/e` on `exFs`
(entries `.`, `..`, `x`) enqueues only `/e/x`, which is not a dot path. -/
theorem traversal_never_enqueues_dot_witness :
    "/e/x" ∈ ([] : List String) ∨ is_dot_or_dot_dot "/e/x" = false :=
  traversal_never_enqueues_dot.2 exFs "/e" [".", "..", "x"] 0 [] 2 ["/e/x"]
    rfl "/e/x" (by decide)

/-! ## Helper lemmas for result printing -/

theorem print_results_loop_spec (fs : Fs) (totals : List Nat) :
    ∀ (paths : List String) (dir_num : Nat) (printed : List String),
      (∀ p ∈ paths, (fs.lstat p).isSome) →
      print_results_loop fs paths totals dir_num printed =
        Except.ok (printed ++ spec_result_lines fs totals paths dir_num) := by
  intro paths
  induction paths with
  | nil => intro dir_num printed h; simp [print_results_loop, spec_result_lines]
  | cons p rest ih =>
    intro dir_num printed h
    obtain ⟨file_info, hl⟩ :=
      Option.isSome_iff_exists.mp (h p (List.mem_cons_self p rest))
    have hrest : ∀ x ∈ rest, (fs.lstat x).isSome :=
      fun x hx => h x (List.mem_cons_of_mem p hx)
    have hdirp : is_dir_path fs p = is_dictionary file_info := by
      simp [is_dir_path, hl]
    cases hdic : is_dictionary file_info with
    | true =>
      simp only [print_results_loop, hl, hdic, if_pos rfl, ih _ _ hrest,
        spec_result_lines, spec_result_line, hdirp, if_true,
        List.append_assoc, List.singleton_append]
    | false =>
      simp only [print_results_loop, hl, hdic, Bool.false_eq_true, if_false,
        ih _ _ hrest, spec_result_lines, spec_result_line, hdirp,
        Nat.add_zero, List.append_assoc, List.singleton_append]

theorem spec_result_lines_length (fs : Fs) (totals : List Nat) :
    ∀ (paths : List String) (dir_num : Nat),
      (spec_result_lines fs totals paths dir_num).length = paths.length := by
  intro paths
  induction paths with
  | nil => intro dir_num; rfl
  | cons p rest ih => intro dir_num; simp [spec_result_lines, ih]

theorem spec_result_lines_getElem? (fs : Fs) (totals : List Nat) :
    ∀ (paths : List String) (dir_num i : Nat), i < paths.length →
      (spec_result_lines fs totals paths dir_num)[i]? =
        some (spec_result_line fs totals
          (dir_num + (paths.take i).countP (fun p => is_dir_path fs p))
          (paths.getD i "")) := by
  intro paths
  induction paths with
  | nil => intro dir_num i hi; simp at hi
  | cons p rest ih =>
    intro dir_num i hi
    cases i with
    | zero => simp [spec_result_lines]
    | succ n =>
      have hn : n < rest.length := by simpa using hi
      have harith : dir_num + (if is_dir_path fs p then 1 else 0) +
          List.countP (fun q => is_dir_path fs q) (List.take n rest) =
          dir_num + (List.countP (fun q => is_dir_path fs q)
            (List.take n rest) + if is_dir_path fs p then 1 else 0) := by
        omega
      simp only [spec_result_lines, List.getElem?_cons_succ,
        List.take_succ_cons, List.countP_cons, List.getD_cons_succ,
        ih (dir_num + if is_dir_path fs p then 1 else 0) n hn, harith]

/-- C8: when every path argument can be `lstat`ed, `print_results` emits
exactly one line per path argument, in the original argument order,
formatted as the block count, a tab, then the path (`spec_result_line`);
for a plain-file argument the printed count is the file's own `st_blocks`
(no coordinator is consulted) and for a directory argument it is the total
of the coordinator at the index given by the number of directory
arguments preceding it. -/
theorem print_results_spec (fs : Fs) (paths : List String)
    (totals : List Nat) (h : ∀ p ∈ paths, (fs.lstat p).isSome) :
    ∃ lines, print_results fs paths totals = Except.ok lines ∧
      lines.length = paths.length ∧
      ∀ i, i < paths.length →
        lines[i]? = some (spec_result_line fs totals
          ((paths.take i).countP (fun p => is_dir_path fs p))
          (paths.getD i "")) := by
  refine ⟨spec_result_lines fs totals paths 0, ?_, ?_, ?_⟩
  · unfold print_results
    rw [print_results_loop_spec fs totals paths 0 [] h, List.nil_append]
  · exact spec_result_lines_length fs totals paths 0
  · intro i hi
    rw [spec_result_lines_getElem? fs totals paths 0 i hi, Nat.zero_add]

/-- Witness for `print_results_spec`: on `exFs` with arguments
`/f` (3-block file) then `/d` (directory, coordinator total 9), the lines
are `3<TAB>/f` and `9<TAB>/d`, in argument order. -/
theorem print_results_spec_witness :
    ∃ lines, print_results exFs ["/f", "/d"] [9] = Except.ok lines ∧
      lines.length = (["/f", "/d"] : List String).length ∧
      ∀ i, i < (["/f", "/d"] : List String).length →
        lines[i]? = some (spec_result_line exFs [9]
          (((["/f", "/d"] : List String).take i).countP
            (fun p => is_dir_path exFs p))
          ((["/f", "/d"] : List String).getD i "")) :=
  print_results_spec exFs ["/f", "/d"] [9] (by decide)

/-! ## Helper lemmas for the whole-run abort claim -/

theorem process_argument_error_eq_one (fs : Fs) (arg : String)
    (coords : List Coordinator) (e : Nat)
    (h : process_argument fs arg coords = Except.error e) : e = 1 := by
  unfold process_argument safe_lstat at h
  cases hl : fs.lstat arg with
  | none => rw [hl] at h; injection h with h; exact h.symm
  | some file_info =>
    rw [hl] at h
    cases hd : is_dictionary file_info <;> simp [hd] at h

theorem process_argument_ok_isSome (fs : Fs) (arg : String)
    (coords coords' : List Coordinator)
    (h : process_argument fs arg coords = Except.ok coords') :
    (fs.lstat arg).isSome := by
  unfold process_argument safe_lstat at h
  cases hl : fs.lstat arg with
  | none => rw [hl] at h; exact absurd h (by simp)
  | some file_info => rfl

theorem traverse_input_arguments_error_eq_one (fs : Fs) :
    ∀ (args : List String) (coords : List Coordinator) (e : Nat),
      traverse_input_arguments fs args coords = Except.error e → e = 1 := by
  intro args
  induction args with
  | nil => intro coords e h; simp [traverse_input_arguments] at h
  | cons a rest ih =>
    intro coords e h
    unfold traverse_input_arguments at h
    cases hp : process_argument fs a coords with
    | error e' =>
      rw [hp] at h
      injection h with h
      exact h ▸ process_argument_error_eq_one fs a coords e' hp
    | ok coords' =>
      rw [hp] at h
      exact ih coords' e h

theorem traverse_input_arguments_ok_isSome (fs : Fs) :
    ∀ (args : List String) (coords res : List Coordinator),
      traverse_input_arguments fs args coords = Except.ok res →
      ∀ p ∈ args, (fs.lstat p).isSome := by
  intro args
  induction args with
  | nil => intro coords res h p hp; simp at hp
  | cons a rest ih =>
    intro coords res h p hp
    unfold traverse_input_arguments at h
    cases hpr : process_argument fs a coords with
    | error e' => rw [hpr] at h; exact absurd h (by simp)
    | ok coords' =>
      rw [hpr] at h
      rcases List.mem_cons.mp hp with hpa | hprest
      · exact hpa ▸ process_argument_ok_isSome fs a coords coords' hpr
      · exact ih coords' res h p hprest

/-- C5: no partial results on a fatal error — whenever `main_run` aborts
(any phase called `exit`: a fatal `lstat` on a named argument during
seeding, or a fatal error in the worker phase), the list of stdout lines
already printed is empty and the exit status is non-zero.  The printing
phase itself re-runs `safe_lstat` on each argument, but on the same
filesystem those calls succeeded during seeding, so printing never aborts
mid-way: every run prints either all result lines or none. -/
theorem fatal_abort_prints_nothing (fs : Fs) (paths : List String)
    (work : List Coordinator → Except Nat (List Nat × Bool))
    (hwork : ∀ coords e, work coords = Except.error e → e = 1)
    (lines : List String) (code : Nat)
    (habort : main_run fs paths work = Except.error (lines, code)) :
    lines = [] ∧ code ≠ 0 := by
  unfold main_run at habort
  cases hseed : traverse_input_arguments fs paths [] with
  | error e =>
    rw [hseed] at habort
    have he : e = 1 :=
      traverse_input_arguments_error_eq_one fs paths [] e hseed
    injection habort with h
    injection h with h1 h2
    exact ⟨h1.symm, by omega⟩
  | ok coords =>
    rw [hseed] at habort
    dsimp only at habort
    cases hw : work coords with
    | error e =>
      rw [hw] at habort
      have he : e = 1 := hwork coords e hw
      injection habort with h
      injection h with h1 h2
      exact ⟨h1.symm, by omega⟩
    | ok totalsFailed =>
      obtain ⟨totals, failed⟩ := totalsFailed
      rw [hw] at habort
      dsimp only at habort
      have hsome := traverse_input_arguments_ok_isSome fs paths [] coords hseed
      have hprint : print_results fs paths totals =
          Except.ok (spec_result_lines fs totals paths 0) := by
        unfold print_results
        rw [print_results_loop_spec fs totals paths 0 [] hsome,
          List.nil_append]
      rw [hprint] at habort
      exact Except.noConfusion habort

/-- Witness for `fatal_abort_prints_nothing`: running on `exFs` with the
single argument `missing` (whose `lstat` fails) aborts during seeding with
status 1 and zero stdout lines. -/
theorem fatal_abort_prints_nothing_witness :
    ([] : List String) = [] ∧ (1 : Nat) ≠ 0 :=
  fatal_abort_prints_nothing exFs ["missing"] workOk
    (fun _ _ h => Except.noConfusion h) [] 1 rfl

/-! ## Helper lemmas for the scheduler invariant -/

theorem nodeBlocks_eq_own_add_pending (c : FsNode) :
    nodeBlocks c = ownBlocks c + pendingBlocks c := by
  cases c <;> rfl

theorem listBlocks_cons (c : FsNode) (l : List FsNode) :
    listBlocks (c :: l) = nodeBlocks c + listBlocks l := rfl

theorem pendingSum_nil : pendingSum [] = 0 := rfl

theorem pendingSum_cons (c : FsNode) (l : List FsNode) :
    pendingSum (c :: l) = pendingBlocks c + pendingSum l := by
  simp [pendingSum]

theorem pendingSum_append (a b : List FsNode) :
    pendingSum (a ++ b) = pendingSum a + pendingSum b := by
  simp [pendingSum]

theorem pendingSum_enqueue_if_dir (c : FsNode) :
    pendingSum (enqueue_if_dir c) = pendingBlocks c := by
  cases c <;> simp [enqueue_if_dir, isDirNode, pendingSum, pendingBlocks]

theorem inflightPending_cons (u : Traversal) (l : List Traversal) :
    inflightPending (u :: l) = traversalPending u + inflightPending l := by
  simp [inflightPending]

theorem inflightPending_append (a b : List Traversal) :
    inflightPending (a ++ b) = inflightPending a + inflightPending b := by
  simp [inflightPending]

theorem step_rootMeasure {s s' : RootState} (h : Step s s') :
    rootMeasure s' = rootMeasure s := by
  cases h with
  | dequeue b cs rest infl t =>
    simp only [rootMeasure, pendingSum_cons, inflightPending_cons,
      traversalPending, pendingBlocks]
    omega
  | entry c rem q s pre post t =>
    simp only [rootMeasure, pendingSum_append, pendingSum_enqueue_if_dir,
      inflightPending_append, inflightPending_cons, traversalPending,
      listBlocks_cons, nodeBlocks_eq_own_add_pending c]
    omega
  | finish s q pre post t =>
    simp only [rootMeasure, inflightPending_append, inflightPending_cons,
      traversalPending, listBlocks]
    omega

theorem reach_rootMeasure {s s' : RootState} (h : Reach s s') :
    rootMeasure s' = rootMeasure s := by
  induction h with
  | refl => rfl
  | tail hr hs ih => rw [step_rootMeasure hs, ih]

theorem rootMeasure_seed (r : FsNode) :
    rootMeasure (seedRoot r) = nodeBlocks r := by
  simp only [rootMeasure, seedRoot, pendingSum_cons, pendingSum_nil,
    inflightPending]
  simp [nodeBlocks_eq_own_add_pending r]

theorem mstep_getElem? {l l' : List RootState} (h : MStep l l') :
    ∀ i : Nat, l'[i]? = l[i]? ∨
      ∃ s s', l[i]? = some s ∧ l'[i]? = some s' ∧ Step s s' := by
  induction h with
  | here hs =>
    intro i
    cases i with
    | zero => exact Or.inr ⟨_, _, by simp, by simp, hs⟩
    | succ n => simp
  | there hm ih =>
    intro i
    cases i with
    | zero => simp
    | succ n => simpa using ih n

theorem mreach_component {l0 l : List RootState} (h : MReach l0 l) :
    ∀ (i : Nat) (s0 s : RootState), l0[i]? = some s0 → l[i]? = some s →
      Reach s0 s := by
  induction h with
  | refl =>
    intro i s0 s h0 h1
    rw [h0] at h1
    injection h1 with h1
    exact h1 ▸ Reach.refl s0
  | tail hr hs ih =>
    intro i s0 s h0 h1
    rcases mstep_getElem? hs i with heq | ⟨u, u', hb, hc, hstep⟩
    · rw [heq] at h1
      exact ih i s0 s h0 h1
    · rw [hc] at h1
      injection h1 with h1
      exact Reach.tail (ih i s0 u h0 hb) (h1 ▸ hstep)

/-- C1: total correctness of the concurrent traversal — for every list of
root trees, every schedule of every number of workers (`MReach` covers all
interleavings, with arbitrarily many simultaneous in-flight units), and
every terminal state (all queues empty, no in-flight work), the final
total of each root equals the sum of `st_blocks` over all entries of that
root's tree, the root's own blocks having been added once at seeding and
each other entry's blocks once by the unit that enumerated its parent. -/
theorem root_total_eq_tree_sum (roots : List FsNode)
    (final : List RootState)
    (hreach : MReach (roots.map seedRoot) final)
    (hterm : ∀ s ∈ final, s.queue = [] ∧ s.inflight = [])
    (i : Nat) (r : FsNode) (s : RootState)
    (hr : roots[i]? = some r) (hs : final[i]? = some s) :
    s.tot_sum = nodeBlocks r := by
  have h0 : (roots.map seedRoot)[i]? = some (seedRoot r) := by
    simp [List.getElem?_map, hr]
  have hre := mreach_component hreach i (seedRoot r) s h0 hs
  have hm := reach_rootMeasure hre
  obtain ⟨hq, hif⟩ := hterm s (List.getElem?_mem hs)
  have hms : rootMeasure s = s.tot_sum := by
    simp [rootMeasure, hq, hif, pendingSum, inflightPending]
  rw [hms, rootMeasure_seed] at hm
  exact hm

/-- Witness for `root_total_eq_tree_sum`: a concrete 2-worker-shaped
schedule of `exTree` (blocks 1 + 2 + 3 + 4) ends with total 10. -/
theorem root_total_eq_tree_sum_witness :
    ({ queue := [], inflight := [], tot_sum := 10 } : RootState).tot_sum =
      nodeBlocks exTree := by
  refine root_total_eq_tree_sum [exTree] [⟨[], [], 10⟩] ?_ ?_ 0 exTree
    ⟨[], [], 10⟩ rfl rfl
  · exact
      MReach.tail
        (MReach.tail
          (MReach.tail
            (MReach.tail
              (MReach.tail
                (MReach.tail
                  (MReach.tail (MReach.refl [⟨[exTree], [], 1⟩])
                    (MStep.here (Step.dequeue 1 [FsNode.file 2, exTreeSub]
                      [] [] 1)))
                  (MStep.here (Step.entry (FsNode.file 2) [exTreeSub] []
                    0 [] [] 1)))
                (MStep.here (Step.entry exTreeSub [] [] 2 [] [] 1)))
              (MStep.here (Step.finish 5 [exTreeSub] [] [] 1)))
            (MStep.here (Step.dequeue 3 [FsNode.file 4] [] [] 6)))
          (MStep.here (Step.entry (FsNode.file 4) [] [] 0 [] [] 6)))
        (MStep.here (Step.finish 4 [] [] [] 6))
  · intro s hs
    rw [List.mem_singleton.mp hs]
    exact ⟨rfl, rfl⟩

end Mdu
